import Mathlib

/-!
Verification development for the coro-http-client transport layer.

The C++ sources under include/coro_http are shallowly embedded here:
std::string values become `List Char` (for the textual parsers) or
`String` (for the builders), byte strings of the SOCKS5 codec become
`List Nat` with entries below 256, machine integers become `Int`/`Nat`,
and the fallible parsers return `Option` results where `none` marks an
execution that performs an out-of-bounds character access or reads an
uninitialized variable (undefined behavior in the source).
-/

namespace CoroHttp

/-! ## Stream primitives

Models of the pieces of `std::istringstream` the parsers use:
`std::getline`, whitespace skipping, token extraction (`>> std::string`)
and integer extraction (`>> int`, C++11 semantics: a failed extraction
stores 0 and sets the fail bit). -/

/-- The whitespace set used by formatted stream extraction
(`std::isspace` in the default locale). -/
def isStreamSpace (c : Char) : Bool :=
  c == ' ' || c == '\t' || c == '\n' || c == '\x0b' || c == '\x0c' || c == '\r'

/-- Split off the characters before the first newline; the newline itself
is consumed and belongs to neither part. -/
def takeLine : List Char → List Char × List Char
  | [] => ([], [])
  | c :: cs =>
    if c = '\n' then ([], cs)
    else
      let p := takeLine cs
      (c :: p.1, p.2)

/-- Model of `std::getline`: fails (returns `none`) exactly when the
stream is already exhausted; otherwise yields the line read and the
unconsumed remainder of the stream. -/
def getline (cs : List Char) : Option (List Char × List Char) :=
  match cs with
  | [] => none
  | c :: cs' => some (takeLine (c :: cs'))

/-- Model of `if (line.back() == '\r') line.pop_back();`.
`std::string::back()` on an empty string is an out-of-bounds access, so
the result is `none` in that case; otherwise the trailing carriage
return, if present, is removed. -/
def stripCR (l : List Char) : Option (List Char) :=
  match l.getLast? with
  | none => none
  | some c => some (if c = '\r' then l.dropLast else l)

/-- Model of `stream >> token` for a `std::string` target: skip
whitespace, then read the maximal run of non-whitespace characters.
Fails when no character remains after the whitespace. -/
def extractToken (cs : List Char) : Option (List Char × List Char) :=
  let cs' := cs.dropWhile isStreamSpace
  match cs'.takeWhile (fun c => !isStreamSpace c) with
  | [] => none
  | tok => some (tok, cs'.dropWhile (fun c => !isStreamSpace c))

/-- Model of `stream >> n` for an `int` target (C++11): skip whitespace,
read an optional sign and a digit run.  The returned flag records whether
the extraction succeeded; on failure the stored value is 0 and the
stream enters a failed state, so the remainder is irrelevant. -/
def extractInt (cs : List Char) : Int × List Char × Bool :=
  let cs1 := cs.dropWhile isStreamSpace
  let sr : Int × List Char :=
    match cs1 with
    | '-' :: r => (-1, r)
    | '+' :: r => (1, r)
    | r => (1, r)
  let ds := sr.2.takeWhile Char.isDigit
  if ds = [] then (0, cs, false)
  else
    (sr.1 * ds.foldl (fun a c => a * 10 + ((c.toNat - 48 : Nat) : Int)) 0,
     sr.2.dropWhile Char.isDigit, true)

/-! ## Wire codec (`http_parser.hpp`, `http_response.hpp`) -/

/-- Embedding of the `HttpResponse` value object: status code, reason
phrase, header map and body.  The `std::map` of headers is modelled as an
association list with unique keys; `add_header` overwrites the value of
an existing key. -/
structure HttpResponse where
  status_code : Int
  reason : List Char
  headers : List (List Char × List Char)
  body : List Char
deriving DecidableEq, Repr

/-- Model of `headers_[key] = value` on `std::map`: overwrite the
existing binding of the key, or append a new binding. -/
def addHeader (hs : List (List Char × List Char)) (k v : List Char) :
    List (List Char × List Char) :=
  match hs with
  | [] => [(k, v)]
  | (k0, v0) :: rest => if k0 = k then (k0, v) :: rest else (k0, v0) :: addHeader rest k v

/-- Lookup in the embedded header map. -/
def findHeader (hs : List (List Char × List Char)) (k : List Char) : Option (List Char) :=
  match hs with
  | [] => none
  | (k0, v0) :: rest => if k0 = k then some v0 else findHeader rest k

/-- Model of `line.find(':')` followed by the two `substr` calls: split a
header line at its first colon (the colon belongs to neither part);
`none` when the line has no colon. -/
def splitAtColon : List Char → Option (List Char × List Char)
  | [] => none
  | c :: cs =>
    if c = ':' then some ([], cs)
    else match splitAtColon cs with
      | none => none
      | some (k, v) => some (c :: k, v)

/-- The two trimming loops of `parse_response`: drop leading and trailing
space characters (exactly `' '`, as in the source) from a header value. -/
def trimValue (v : List Char) : List Char :=
  ((v.dropWhile (fun c => c = ' ')).reverse.dropWhile (fun c => c = ' ')).reverse

/-- The header loop of `parse_response`:
`while (std::getline(stream, line) && line != "\r") { ... }`, returning
the accumulated header map and the unread remainder of the stream (the
body).  The loop is embedded with a fuel argument bounding its iteration
count; each iteration consumes at least one character, so
`input.length + 1` units of fuel always suffice and the `none` of the
fuel-exhaustion branch is unreachable from `parseHeaders`.  A `none`
result otherwise marks the out-of-bounds `line.back()` on an empty
line. -/
def parseHeadersFuel :
    Nat → List Char → List (List Char × List Char) →
    Option (List (List Char × List Char) × List Char)
  | 0, _, _ => none
  | Nat.succ fuel, input, acc =>
    match getline input with
    | none => some (acc, [])
    | some (line, rest) =>
      if line = ['\r'] then some (acc, rest)
      else match stripCR line with
        | none => none
        | some l =>
          match splitAtColon l with
          | none => parseHeadersFuel fuel rest acc
          | some (k, v) => parseHeadersFuel fuel rest (addHeader acc k (trimValue v))

/-- The header loop of `parse_response` with sufficient fuel. -/
def parseHeaders (input : List Char) (acc : List (List Char × List Char)) :
    Option (List (List Char × List Char) × List Char) :=
  parseHeadersFuel (input.length + 1) input acc

/-- Embedding of `parse_response` from `http_parser.hpp`.  `none` marks
undefined behavior: the out-of-bounds `line.back()` on an empty line, or
reading the uninitialized `status_code` after `>> http_version` failed
(so that `>> status_code` was never performed).  When the first `getline`
fails the default-constructed response (status 0) survives unchanged. -/
def parse_response (response_data : List Char) : Option HttpResponse :=
  match getline response_data with
  | none =>
    match parseHeaders [] [] with
    | none => none
    | some (hs, body) => some ⟨0, [], hs, body⟩
  | some (line, rest) =>
    match stripCR line with
    | none => none
    | some l =>
      match extractToken l with
      | none => none
      | some (_, afterVersion) =>
        let r := extractInt afterVersion
        let reason0 := if r.2.2 then r.2.1 else []
        let reason := if reason0.head? = some ' ' then reason0.drop 1 else reason0
        match parseHeaders rest [] with
        | none => none
        | some (hs, body) => some ⟨r.1, reason, hs, body⟩

/-! ## Proxy handler (`proxy_handler.hpp`) -/

/-- Embedding of `build_connect_request`: the CONNECT request line, the
`Host` header, and — when a proxy username is configured — a
`Proxy-Authorization` header whose value is the literal concatenation
`"Basic " + username + ":" + password` (the source performs no base64
encoding). -/
def build_connect_request (host port proxy_username proxy_password : String) : String :=
  let head := "CONNECT " ++ host ++ ":" ++ port ++ " HTTP/1.1\r\n"
      ++ "Host: " ++ host ++ ":" ++ port ++ "\r\n"
  let withAuth :=
    if proxy_username ≠ "" then
      head ++ "Proxy-Authorization: "
        ++ ("Basic " ++ (proxy_username ++ ":" ++ proxy_password)) ++ "\r\n"
    else head
  withAuth ++ "\r\n"

/-- The status code extracted by the parsers from a status line:
`status_line >> http_version >> status_code`.  `none` when the
`http_version` extraction fails, in which case `status_code` is read
uninitialized by the source (undefined behavior). -/
def parseStatusCode (l : List Char) : Option Int :=
  match extractToken l with
  | none => none
  | some (_, rest) => some (extractInt rest).1

/-- Embedding of `parse_connect_response`: read the first line, strip a
trailing carriage return, extract version token and status code, and
report success exactly for status 200.  An empty reply (failed
`getline`) yields `false`; `none` marks undefined behavior (empty first
line, or a first line with no version token). -/
def parse_connect_response (response : List Char) : Option Bool :=
  match getline response with
  | none => some false
  | some (line, _) =>
    match stripCR line with
    | none => none
    | some l =>
      match parseStatusCode l with
      | none => none
      | some code => some (code == 200)

/-- The status code of the first line of a proxy reply, as the claims
phrase it: the composition of `getline`, the carriage-return strip and
the status-line extraction used by `parse_connect_response`. -/
def statusOfReply (s : List Char) : Option Int :=
  match getline s with
  | none => none
  | some (line, _) => (stripCR line).bind parseStatusCode

/-- A byte of a C++ `char` pushed into a `std::string`, as an unsigned
value. -/
def byteOfChar (c : Char) : Nat := c.toNat % 256

/-- Model of `std::stoi`: skip whitespace, optional sign, digit run;
`none` when no digit is found (the source throws). -/
def stoi (s : List Char) : Option Int :=
  let s1 := s.dropWhile isStreamSpace
  let sr : Int × List Char :=
    match s1 with
    | '-' :: r => (-1, r)
    | '+' :: r => (1, r)
    | r => (1, r)
  let ds := sr.2.takeWhile Char.isDigit
  if ds = [] then none
  else some (sr.1 * ds.foldl (fun a c => a * 10 + ((c.toNat - 48 : Nat) : Int)) 0)

/-- Embedding of `build_socks5_connect`: version 5, command CONNECT,
reserved 0, address type 3 (domain name), length-prefixed host bytes,
then the port in network byte order (`(port_num >> 8) & 0xFF` and
`port_num & 0xFF`; the shift on a negative `int` is arithmetic, i.e.
flooring division). -/
def build_socks5_connect (host port : List Char) : Option (List Nat) :=
  (stoi port).map fun p =>
    [0x05, 0x01, 0x00, 0x03, host.length % 256]
      ++ host.map byteOfChar
      ++ [((p.fdiv 256).emod 256).toNat, (p.emod 256).toNat]

/-- Model of `std::string::operator[]` (C++11): positions below the size
read the stored character, position equal to the size reads the
terminating null character, larger positions are out of bounds. -/
def cppCharAt (l : List Nat) (i : Nat) : Option Nat :=
  if h : i < l.length then some (l.get ⟨i, h⟩)
  else if i = l.length then some 0
  else none

/-- Embedding of `parse_socks5_response`: a reply shorter than the
declared minimum size is rejected; otherwise the byte at offset 1 is
compared with `0x00`.  `none` marks the out-of-bounds access that occurs
when offset 1 lies beyond the terminating null (an empty reply together
with a minimum size of 0). -/
def parse_socks5_response (response : List Nat) (min_size : Nat) : Option Bool :=
  if response.length < min_size then some false
  else (cppCharAt response 1).map (fun b => b == 0)

/-! ## Base64 (specification side)

Modelled from the spec: the spec states that HTTP proxy Basic
authentication must encode `"user:pass"` with standard base64 (RFC 4648)
and that the source's raw concatenation is a defect.  This definition is
the specification-side encoder used to compare against the source's
`build_connect_request`; it embeds no source code. -/

/-- The base64 alphabet. -/
def base64Alphabet : List Char :=
  "ABCDEFGHIJKLMNOPQRSTUVWXYZabcdefghijklmnopqrstuvwxyz0123456789+/".data

/-- The base64 digit for a 6-bit value. -/
def base64Digit (n : Nat) : Char := base64Alphabet.getD n 'A'

/-- Base64-encode a byte sequence, three bytes to four digits, with
`'='` padding. -/
def base64Bytes : List Nat → List Char
  | [] => []
  | [b1] => [base64Digit (b1 / 4), base64Digit (b1 % 4 * 16), '=', '=']
  | [b1, b2] =>
    [base64Digit (b1 / 4), base64Digit (b1 % 4 * 16 + b2 / 16),
     base64Digit (b2 % 16 * 4), '=']
  | b1 :: b2 :: b3 :: rest =>
    [base64Digit (b1 / 4), base64Digit (b1 % 4 * 16 + b2 / 16),
     base64Digit (b2 % 16 * 4 + b3 / 64), base64Digit (b3 % 64)]
      ++ base64Bytes rest

/-- Base64-encode the bytes of a string. -/
def base64Encode (s : String) : String := ⟨base64Bytes (s.data.map byteOfChar)⟩

/-- Whether the pattern occurs as a contiguous substring of the
haystack. -/
def hasInfix (pat : List Char) : List Char → Bool
  | [] => pat.isPrefixOf []
  | c :: rest => pat.isPrefixOf (c :: rest) || hasInfix pat rest

/-! ## Connection pool (`connection_pool.hpp`)

Transport handles (`shared_ptr` identities of sockets or SSL streams)
are embedded as natural numbers, `steady_clock` instants as naturals,
and the liveness probes `is_socket_valid` / `is_ssl_socket_valid` as a
caller-supplied oracle `valid : Nat → Bool` (their internal decision
logic is embedded separately below).  The two `std::map`s of the pool
are association lists; `operator[]` default-inserts an empty sequence,
exactly as in the source.  `get_connection` additionally receives the
handle `fresh` of the connection that `std::make_shared` would create.
The plain and TLS variants of each member are textually identical in the
source up to the handle type, so they share one core here. -/

/-- Embedding of `PooledConnection` / `PooledSSLConnection`: transport
handle, last-used instant, in-use flag. -/
structure PooledConnection where
  socket : Nat
  last_used : Nat
  in_use : Bool
deriving DecidableEq, Repr

/-- Embedding of the `ConnectionPool` object: per-host cap, idle
timeout, and the two keyed tables. -/
structure ConnectionPool where
  max_connections_per_host : Int
  idle_timeout : Nat
  http_pool : List (String × List PooledConnection)
  ssl_pool : List (String × List PooledConnection)
deriving DecidableEq, Repr

/-- Lookup of a key in an embedded `std::map`. -/
def mapFind (m : List (String × List PooledConnection)) (k : String) :
    Option (List PooledConnection) :=
  match m with
  | [] => none
  | (k0, v) :: rest => if k0 = k then some v else mapFind rest k

/-- Store a value under a key in an embedded `std::map`, inserting the
key when absent. -/
def mapSet (m : List (String × List PooledConnection)) (k : String)
    (v : List PooledConnection) : List (String × List PooledConnection) :=
  match m with
  | [] => [(k, v)]
  | (k0, v0) :: rest => if k0 = k then (k0, v) :: rest else (k0, v0) :: mapSet rest k v

/-- The scan loop shared by `get_connection` and `get_ssl_connection`:
erase entries idle past the timeout, return the first entry that is free
and passes the liveness probe (marking it in use and refreshing its
timestamp), erase entries failing the probe, keep the rest.  Returns the
found handle, if any, together with the sequence as the loop leaves
it (entries after a found one are not visited). -/
def scanAcquire (it now : Nat) (valid : Nat → Bool) :
    List PooledConnection → Option Nat × List PooledConnection
  | [] => (none, [])
  | e :: rest =>
    if it < now - e.last_used then scanAcquire it now valid rest
    else if !e.in_use && valid e.socket then
      (some e.socket, { e with in_use := true, last_used := now } :: rest)
    else if !(valid e.socket) then scanAcquire it now valid rest
    else
      let p := scanAcquire it now valid rest
      (p.1, e :: p.2)

/-- The body shared by `get_connection` and `get_ssl_connection`, acting
on one of the two tables: scan the key's sequence; on a miss, append a
fresh in-use entry when the sequence is below the per-host cap, or
return the fresh handle without inserting it (overflow) when it is
not. -/
def acquireFromPool (mx : Int) (it : Nat)
    (m : List (String × List PooledConnection))
    (now : Nat) (valid : Nat → Bool) (fresh : Nat) (key : String) :
    Nat × List (String × List PooledConnection) :=
  let conns := (mapFind m key).getD []
  match scanAcquire it now valid conns with
  | (some s, conns') => (s, mapSet m key conns')
  | (none, conns') =>
    if (conns'.length : Int) < mx then
      (fresh, mapSet m key (conns' ++ [⟨fresh, now, true⟩]))
    else
      (fresh, mapSet m key conns')

/-- Embedding of `ConnectionPool::get_connection`. -/
def get_connection (p : ConnectionPool) (now : Nat) (valid : Nat → Bool)
    (fresh : Nat) (host port : String) : Nat × ConnectionPool :=
  let r := acquireFromPool p.max_connections_per_host p.idle_timeout p.http_pool
    now valid fresh (host ++ ":" ++ port)
  (r.1, { p with http_pool := r.2 })

/-- Embedding of `ConnectionPool::get_ssl_connection`. -/
def get_ssl_connection (p : ConnectionPool) (now : Nat) (valid : Nat → Bool)
    (fresh : Nat) (host port : String) : Nat × ConnectionPool :=
  let r := acquireFromPool p.max_connections_per_host p.idle_timeout p.ssl_pool
    now valid fresh (host ++ ":" ++ port)
  (r.1, { p with ssl_pool := r.2 })

/-- The `!should_keep_alive` loop of the release members: erase the
first entry whose handle is identical to the released one. -/
def eraseFirstMatch (sock : Nat) : List PooledConnection → List PooledConnection
  | [] => []
  | e :: rest => if e.socket = sock then rest else e :: eraseFirstMatch sock rest

/-- The normal-release loop of the release members: mark the first entry
whose handle is identical to the released one as idle and refresh its
timestamp. -/
def markFirstMatch (sock now : Nat) : List PooledConnection → List PooledConnection
  | [] => []
  | e :: rest =>
    if e.socket = sock then { e with in_use := false, last_used := now } :: rest
    else e :: markFirstMatch sock now rest

/-- The body shared by `release_connection` and `release_ssl_connection`
on one sequence. -/
def releaseIntoSeq (sock now : Nat) (keep : Bool) (conns : List PooledConnection) :
    List PooledConnection :=
  if keep then markFirstMatch sock now conns else eraseFirstMatch sock conns

/-- Embedding of `ConnectionPool::release_connection`.  Note that
`http_pool_[key]` default-inserts an empty sequence when the key is
absent, which the embedding reproduces through `mapSet`. -/
def release_connection (p : ConnectionPool) (sock : Nat) (host port : String)
    (keep : Bool) (now : Nat) : ConnectionPool :=
  let key := host ++ ":" ++ port
  let conns := (mapFind p.http_pool key).getD []
  { p with http_pool := mapSet p.http_pool key (releaseIntoSeq sock now keep conns) }

/-- Embedding of `ConnectionPool::release_ssl_connection`. -/
def release_ssl_connection (p : ConnectionPool) (sock : Nat) (host port : String)
    (keep : Bool) (now : Nat) : ConnectionPool :=
  let key := host ++ ":" ++ port
  let conns := (mapFind p.ssl_pool key).getD []
  { p with ssl_pool := mapSet p.ssl_pool key (releaseIntoSeq sock now keep conns) }

/-- Embedding of `ConnectionPool::clear`. -/
def ConnectionPool.clear (p : ConnectionPool) : ConnectionPool :=
  { p with http_pool := [], ssl_pool := [] }

/-- One pool operation of a client session, with the environment data
(the clock instant, liveness oracle and freshly allocated handle) each
call observes. -/
inductive PoolOp where
  | get (now : Nat) (valid : Nat → Bool) (fresh : Nat) (host port : String)
  | getSsl (now : Nat) (valid : Nat → Bool) (fresh : Nat) (host port : String)
  | release (sock : Nat) (host port : String) (keep : Bool) (now : Nat)
  | releaseSsl (sock : Nat) (host port : String) (keep : Bool) (now : Nat)
  | clear

/-- Apply one pool operation to the pool state. -/
def applyOp (p : ConnectionPool) : PoolOp → ConnectionPool
  | .get now valid fresh host port => (get_connection p now valid fresh host port).2
  | .getSsl now valid fresh host port => (get_ssl_connection p now valid fresh host port).2
  | .release sock host port keep now => release_connection p sock host port keep now
  | .releaseSsl sock host port keep now => release_ssl_connection p sock host port keep now
  | .clear => p.clear

/-- Run a sequence of pool operations. -/
def runOps (p : ConnectionPool) (ops : List PoolOp) : ConnectionPool :=
  ops.foldl applyOp p

/-- The capacity invariant: every key of both tables holds at most
`max_connections_per_host` entries. -/
def poolInvB (p : ConnectionPool) : Bool :=
  p.http_pool.all (fun kv => (kv.2.length : Int) ≤ p.max_connections_per_host)
    && p.ssl_pool.all (fun kv => (kv.2.length : Int) ≤ p.max_connections_per_host)

/-- An entry the scan loop hands out: not idle past the timeout, not in
use, and passing the liveness probe. -/
def usableEntry (it now : Nat) (valid : Nat → Bool) (e : PooledConnection) : Bool :=
  !(decide (it < now - e.last_used)) && !e.in_use && valid e.socket

/-- An entry the scan loop retains when it does not hand it out: not
idle past the timeout and passing the liveness probe. -/
def keepEntry (it now : Nat) (valid : Nat → Bool) (e : PooledConnection) : Bool :=
  !(decide (it < now - e.last_used)) && valid e.socket

/-! ## Liveness probes (`is_socket_valid`, `is_ssl_socket_valid`)

The probes interrogate the operating system; the outcome of each system
call is embedded as a field of a probe-state record, and the decision
logic of the source is embedded over it. -/

/-- Outcome of the non-blocking one-byte `read_some` probe. -/
inductive ReadOutcome where
  | wouldBlock
  | eof
  | errorOther
  | gotData
deriving DecidableEq, Repr, BEq

/-- What `is_socket_valid` observes about a plain socket: whether the
pointer is null, whether the socket is open, whether
`remote_endpoint(ec)` succeeds, whether switching to non-blocking mode
succeeds, and what the one-byte read yields. -/
structure SocketProbeState where
  isNull : Bool
  is_open : Bool
  remoteEndpointOk : Bool
  setNonBlockingOk : Bool
  readOutcome : ReadOutcome
deriving DecidableEq, Repr

/-- Embedding of `ConnectionPool::is_socket_valid`, branch for branch. -/
def is_socket_valid (s : SocketProbeState) : Bool :=
  if s.isNull then false
  else if !s.is_open then false
  else if !s.remoteEndpointOk then false
  else if !s.setNonBlockingOk then false
  else match s.readOutcome with
    | .wouldBlock => true
    | _ => false

/-- What `is_ssl_socket_valid` observes about a TLS stream: the plain
socket observations plus the SSL handle, handshake and session state. -/
structure SslProbeState where
  isNull : Bool
  is_open : Bool
  remoteEndpointOk : Bool
  nativeHandleNull : Bool
  sslInitFinished : Bool
  sslSessionPresent : Bool
  setNonBlockingOk : Bool
  readOutcome : ReadOutcome
deriving DecidableEq, Repr

/-- Embedding of `ConnectionPool::is_ssl_socket_valid`, branch for
branch: the SSL-session checks precede the byte-level probe. -/
def is_ssl_socket_valid (s : SslProbeState) : Bool :=
  if s.isNull then false
  else if !s.is_open then false
  else if !s.remoteEndpointOk then false
  else if s.nativeHandleNull then false
  else if !s.sslInitFinished then false
  else if !s.sslSessionPresent then false
  else if !s.setNonBlockingOk then false
  else match s.readOutcome with
    | .wouldBlock => true
    | _ => false

/-! ## Retry wrapper (execution engine)

Modelled from the spec: the retry wrapper of the request execution
engine is not part of the sources under src/ — only `retry_example.cpp`
and the spec reference the configuration fields `enable_retry`,
`max_retries`, `initial_retry_delay` and `retry_backoff_factor` (the
`ClientConfig` in src/ lacks them).  Spec §4.3: on a failure classified
as retryable, wait `initial_delay * backoff_factor^(attempt-1)`, then
retry, up to `max_retries` additional attempts (total attempts =
`max_retries + 1`); non-retryable failures and exhaustion propagate the
terminal failure.  Delays are exact rationals (the double backoff factor
2.0 of the claim is exact). -/

/-- Classification of one attempt of the execution engine. -/
inductive AttemptResult where
  | success
  | retryableFailure
  | fatalFailure
deriving DecidableEq, Repr

/-- Modelled from the spec: the backoff delay waited before the retry
that follows failed attempt number `attempt`. -/
def backoffDelay (initialDelay backoff : ℚ) (attempt : Nat) : ℚ :=
  initialDelay * backoff ^ (attempt - 1)

/-- Modelled from the spec: the retry loop.  `outcome k` is how attempt
number `k` (1-based) ends; `remaining` counts the retries still allowed.
Returns the number of the last attempt performed, the list of backoff
waits in order, and the final result. -/
def runRetry (outcome : Nat → AttemptResult) (d b : ℚ) :
    Nat → Nat → Nat × List ℚ × AttemptResult
  | 0, attempt =>
    match outcome attempt with
    | .success => (attempt, [], .success)
    | .fatalFailure => (attempt, [], .fatalFailure)
    | .retryableFailure => (attempt, [], .retryableFailure)
  | Nat.succ r, attempt =>
    match outcome attempt with
    | .success => (attempt, [], .success)
    | .fatalFailure => (attempt, [], .fatalFailure)
    | .retryableFailure =>
      let res := runRetry outcome d b r (attempt + 1)
      (res.1, backoffDelay d b attempt :: res.2.1, res.2.2)

/-- Modelled from the spec: `execute` under the retry policy — attempt 1
with up to `maxRetries` retries. -/
def executeWithRetry (maxRetries : Nat) (d b : ℚ)
    (outcome : Nat → AttemptResult) : Nat × List ℚ × AttemptResult :=
  runRetry outcome d b maxRetries 1

/-! ## Sample inputs used by the witness theorems -/

/-- An outcome environment in which every attempt fails retryably. -/
def alwaysRetry : Nat → AttemptResult := fun _ => AttemptResult.retryableFailure

/-- A liveness oracle that accepts every handle. -/
def sampleValidAll : Nat → Bool := fun _ => true

/-- A liveness oracle that rejects exactly handle 3. -/
def sampleValid3 : Nat → Bool := fun s => !(s == 3)

/-- A sample sequence holding a stale entry, a busy live entry, a dead
entry, a free live entry and a trailing stale entry. -/
def sampleConns : List PooledConnection :=
  [⟨1, 5, false⟩, ⟨2, 15, true⟩, ⟨3, 15, false⟩, ⟨4, 15, false⟩, ⟨5, 1, false⟩]

/-- A sample pool at capacity for key `h:80` with its entry in use. -/
def samplePool : ConnectionPool := ⟨1, 30, [("h:80", [⟨7, 5, true⟩])], []⟩

/-- A sample pool holding one in-use entry for key `h:80`. -/
def samplePoolRelease : ConnectionPool := ⟨2, 30, [("h:80", [⟨5, 0, true⟩])], []⟩

/-- A sample operation sequence exceeding the per-host cap of 1. -/
def sampleOps : List PoolOp :=
  [PoolOp.get 0 sampleValidAll 10 "h" "80",
   PoolOp.get 0 sampleValidAll 11 "h" "80",
   PoolOp.release 10 "h" "80" true 1,
   PoolOp.getSsl 1 sampleValidAll 12 "h" "80",
   PoolOp.get 2 sampleValidAll 13 "h" "80",
   PoolOp.release 13 "h" "80" false 3]

end CoroHttp

namespace CoroHttp

/-! ## Theorems -/

/-- C9: parsing the response bytes assembled from status line
`HTTP/1.1 200 OK`, header line `X: Y`, a blank line and body `abc` (CRLF
line endings) yields status code 200, the header map with `X` bound to
`Y`, and body exactly `abc`. -/
theorem claim_C9 :
    parse_response "HTTP/1.1 200 OK\r\nX: Y\r\n\r\nabc".data
      = some ⟨200, "OK".data, [("X".data, "Y".data)], "abc".data⟩
  ∧ (parse_response "HTTP/1.1 200 OK\r\nX: Y\r\n\r\nabc".data).map
      (fun r => findHeader r.headers "X".data) = some (some "Y".data) := by
  decide

/-- C10: the parsers are not total — `parse_response` and
`parse_connect_response` evaluate `line.back()` on an empty line, an
out-of-bounds access (`none` in the embedding), for a reply that begins
with a bare newline or contains an empty line before the header
terminator; the empty input itself is handled (the first `getline`
fails before any character access). -/
theorem claim_C10 :
    parse_connect_response "\n".data = none
  ∧ parse_response "\n".data = none
  ∧ parse_response "HTTP/1.1 200 OK\r\n\nX: Y\r\n\r\nok".data = none
  ∧ parse_response "".data = some ⟨0, [], [], []⟩
  ∧ parse_connect_response "".data = some false := by
  decide

/-- C6: `build_connect_request` emits the Proxy-Authorization value as
the raw concatenation `Basic user:pass`; the standard Basic-auth
encoding of `user:pass` is the base64 string `dXNlcjpwYXNz`, which the
output does not contain — the code does not perform the base64 encoding
the claim (and the spec's Basic-auth requirement) describes. -/
theorem claim_C6 :
    build_connect_request "h" "80" "user" "pass"
      = "CONNECT h:80 HTTP/1.1\r\nHost: h:80\r\nProxy-Authorization: Basic user:pass\r\n\r\n"
  ∧ base64Encode "user:pass" = "dXNlcjpwYXNz"
  ∧ hasInfix "Proxy-Authorization: Basic user:pass\r\n".data
      (build_connect_request "h" "80" "user" "pass").data = true
  ∧ hasInfix "Basic dXNlcjpwYXNz".data
      (build_connect_request "h" "80" "user" "pass").data = false := by
  decide

/-- C8 counterexample: with minimum size 0 and an empty reply,
`parse_socks5_response` indexes position 1 of an empty `std::string`,
an out-of-bounds access (`none` in the embedding) — the function does
not return a boolean there, contrary to the claim's quantification over
every reply string and minimum size. -/
theorem claim_C8_counterexample : parse_socks5_response [] 0 = none := by
  decide

/-- C5 counterexample: releasing a handle that matches no entry under a
key that is absent from the table (here: any release into an empty
pool) default-inserts the key with an empty sequence via
`http_pool_[key]`, so the pool table does not remain completely
unchanged. -/
theorem claim_C5_counterexample :
    release_connection ⟨2, 30, [], []⟩ 7 "h" "80" false 0 ≠ ⟨2, 30, [], []⟩ := by
  decide

/-- The plain liveness probe succeeds exactly when every gate passes and
the non-blocking read would block. -/
theorem is_socket_valid_eq (s : SocketProbeState) :
    is_socket_valid s =
      (!s.isNull && s.is_open && s.remoteEndpointOk && s.setNonBlockingOk
        && decide (s.readOutcome = ReadOutcome.wouldBlock)) := by
  obtain ⟨a, b, c, d, r⟩ := s
  cases a <;> cases b <;> cases c <;> cases d <;> cases r <;> rfl

/-- The TLS liveness probe succeeds exactly when every gate passes —
including the SSL handshake and session checks — and the non-blocking
read would block. -/
theorem is_ssl_socket_valid_eq (t : SslProbeState) :
    is_ssl_socket_valid t =
      (!t.isNull && t.is_open && t.remoteEndpointOk && !t.nativeHandleNull
        && t.sslInitFinished && t.sslSessionPresent && t.setNonBlockingOk
        && decide (t.readOutcome = ReadOutcome.wouldBlock)) := by
  obtain ⟨a, b, c, d, e, f, g, r⟩ := t
  cases a <;> cases b <;> cases c <;> cases d <;> cases e <;> cases f <;> cases g
    <;> cases r <;> rfl

/-- C4: `is_socket_valid` returns true exactly when the pointer is
non-null, the socket is open with a valid remote endpoint, switching to
non-blocking mode succeeds and the one-byte read yields would-block —
EOF, any other error or received data yield false; `is_ssl_socket_valid`
additionally demands a non-null SSL handle, a finished handshake and a
present session before the byte-level probe, and returns false whenever
the handshake or session check fails. -/
theorem claim_C4 (s : SocketProbeState) (t : SslProbeState) :
    is_socket_valid s =
      (!s.isNull && s.is_open && s.remoteEndpointOk && s.setNonBlockingOk
        && decide (s.readOutcome = ReadOutcome.wouldBlock))
  ∧ is_ssl_socket_valid t =
      (!t.isNull && t.is_open && t.remoteEndpointOk && !t.nativeHandleNull
        && t.sslInitFinished && t.sslSessionPresent && t.setNonBlockingOk
        && decide (t.readOutcome = ReadOutcome.wouldBlock))
  ∧ (is_ssl_socket_valid t = true →
      t.sslInitFinished = true ∧ t.sslSessionPresent = true) := by
  refine ⟨is_socket_valid_eq s, is_ssl_socket_valid_eq t, fun h => ?_⟩
  rw [is_ssl_socket_valid_eq t] at h
  simp only [Bool.and_eq_true] at h
  exact ⟨h.1.1.1.2, h.1.1.2⟩

/-- Witness for C4 at concrete probe states: an open plain socket whose
read would block is valid, and a valid TLS probe state implies the
handshake and session checks passed. -/
theorem claim_C4_witness :
    is_socket_valid ⟨false, true, true, true, ReadOutcome.wouldBlock⟩ = true
  ∧ SslProbeState.sslInitFinished
      ⟨false, true, true, false, true, true, true, ReadOutcome.wouldBlock⟩ = true
  ∧ SslProbeState.sslSessionPresent
      ⟨false, true, true, false, true, true, true, ReadOutcome.wouldBlock⟩ = true := by
  have h := claim_C4 ⟨false, true, true, true, ReadOutcome.wouldBlock⟩
    ⟨false, true, true, false, true, true, true, ReadOutcome.wouldBlock⟩
  exact ⟨h.1.trans (by decide), (h.2.2 (by decide)).1, (h.2.2 (by decide)).2⟩

/-- C7: `parse_connect_response`, wherever it returns a boolean, returns
true exactly when the status code parsed from the first line of the
reply is 200; the reply `HTTP/1.1 407 Proxy Authentication Required`
yields false, and so does the empty reply. -/
theorem claim_C7 :
    (∀ (s : List Char) (b : Bool), parse_connect_response s = some b →
        (b = true ↔ statusOfReply s = some 200))
  ∧ parse_connect_response "HTTP/1.1 407 Proxy Authentication Required\r\n\r\n".data
      = some false
  ∧ parse_connect_response [] = some false := by
  refine ⟨?_, by decide, by decide⟩
  intro s b h
  unfold parse_connect_response at h
  unfold statusOfReply
  cases hg : getline s with
  | none =>
    rw [hg] at h
    injection h with h
    subst h
    simp
  | some lr =>
    obtain ⟨line, rest⟩ := lr
    simp only [hg] at h ⊢
    cases hs : stripCR line with
    | none => simp [hs] at h
    | some l =>
      simp only [hs, Option.bind_some] at h ⊢
      cases hc : parseStatusCode l with
      | none => simp [hc] at h
      | some code =>
        simp only [hc, Option.some.injEq] at h ⊢
        subst h
        simp [hc, beq_iff_eq]

/-- Witness for C7: the first conjunct applied to a concrete successful
CONNECT reply shows its first-line status is 200. -/
theorem claim_C7_witness :
    statusOfReply "HTTP/1.1 200 Connection established\r\n\r\n".data = some 200 := by
  exact (claim_C7.1 "HTTP/1.1 200 Connection established\r\n\r\n".data true
    (by decide)).mp rfl

/-- When every attempt fails retryably, the retry loop performs this
attempt and all remaining retries, recording one backoff wait per failed
attempt that still had a retry left. -/
theorem runRetry_all_retryable (outcome : Nat → AttemptResult)
    (hfail : ∀ k, outcome k = AttemptResult.retryableFailure) (d b : ℚ) :
    ∀ remaining attempt,
      runRetry outcome d b remaining attempt =
        (attempt + remaining,
         (List.range remaining).map (fun i => backoffDelay d b (attempt + i)),
         AttemptResult.retryableFailure) := by
  intro remaining
  induction remaining with
  | zero =>
    intro attempt
    simp [runRetry, hfail]
  | succ r ih =>
    intro attempt
    simp only [runRetry, hfail, ih (attempt + 1)]
    refine Prod.ext ?_ (Prod.ext ?_ rfl)
    · simp
      omega
    · simp only [List.range_succ_eq_map, List.map_cons, List.map_map, Nat.add_zero,
        Function.comp_def]
      congr 1
      refine List.map_congr_left ?_
      intro i _
      congr 1
      omega

/-- C2: when every attempt fails with a retryable failure, `execute`
under the retry policy performs exactly `max_retries + 1` attempts,
waiting `initial_delay * backoff_factor^(attempt-1)` before each retry;
with `max_retries = 2`, `initial_retry_delay = 500` ms and
`backoff_factor = 2`, exactly 3 attempts occur and the cumulative
backoff wait is `500 + 1000` ms before the terminal failure. -/
theorem claim_C2 (maxRetries : Nat) (d b : ℚ) (outcome : Nat → AttemptResult)
    (hfail : ∀ k, outcome k = AttemptResult.retryableFailure) :
    (executeWithRetry maxRetries d b outcome).1 = maxRetries + 1
  ∧ (executeWithRetry maxRetries d b outcome).2.1
      = (List.range maxRetries).map (fun i => d * b ^ i)
  ∧ (executeWithRetry maxRetries d b outcome).2.2 = AttemptResult.retryableFailure
  ∧ (executeWithRetry 2 500 2 outcome).1 = 3
  ∧ (executeWithRetry 2 500 2 outcome).2.1.sum = 500 + 1000 := by
  have key := runRetry_all_retryable outcome hfail d b
  have key2 := runRetry_all_retryable outcome hfail 500 2
  have harg : (fun i => backoffDelay d b (1 + i)) = fun i => d * b ^ i := by
    funext i
    unfold backoffDelay
    congr 2
    omega
  refine ⟨?_, ?_, ?_, ?_, ?_⟩
  · unfold executeWithRetry; rw [key]; simp [Nat.add_comm]
  · unfold executeWithRetry; rw [key]; simp [harg]
  · unfold executeWithRetry; rw [key]
  · unfold executeWithRetry; rw [key2]
  · unfold executeWithRetry
    rw [key2]
    norm_num [List.range_succ, backoffDelay]

/-- Witness for C2: with every attempt failing retryably and the
claim's concrete configuration, 3 attempts occur and the waits sum to
1500 ms. -/
theorem claim_C2_witness :
    (executeWithRetry 2 500 2 alwaysRetry).1 = 3
  ∧ (executeWithRetry 2 500 2 alwaysRetry).2.1.sum = 500 + 1000 := by
  have h := claim_C2 2 500 2 alwaysRetry (fun k => rfl)
  exact ⟨h.2.2.2.1, h.2.2.2.2⟩

/-- The scan loop never lengthens the sequence. -/
theorem scanAcquire_length_le (it now : Nat) (valid : Nat → Bool) :
    ∀ l : List PooledConnection, (scanAcquire it now valid l).2.length ≤ l.length := by
  intro l
  induction l with
  | nil => simp [scanAcquire]
  | cons e rest ih =>
    simp only [scanAcquire]
    by_cases h1 : it < now - e.last_used
    · simp only [if_pos h1]
      exact le_trans ih (Nat.le_succ _)
    · simp only [if_neg h1]
      by_cases h2 : (!e.in_use && valid e.socket) = true
      · simp [h2]
      · simp only [if_neg h2]
        by_cases h3 : (!(valid e.socket)) = true
        · simp only [if_pos h3]
          exact le_trans ih (Nat.le_succ _)
        · simp only [if_neg h3, List.length_cons]
          exact Nat.succ_le_succ ih

/-- A handle the scan loop returns belongs to the scanned sequence. -/
theorem scanAcquire_mem (it now : Nat) (valid : Nat → Bool) :
    ∀ (l : List PooledConnection) (s : Nat),
      (scanAcquire it now valid l).1 = some s → s ∈ l.map PooledConnection.socket := by
  intro l
  induction l with
  | nil => intro s h; simp [scanAcquire] at h
  | cons e rest ih =>
    intro s h
    simp only [scanAcquire] at h
    by_cases h1 : it < now - e.last_used
    · rw [if_pos h1] at h
      exact List.mem_cons_of_mem _ (ih s h)
    · rw [if_neg h1] at h
      by_cases h2 : (!e.in_use && valid e.socket) = true
      · rw [if_pos h2] at h
        injection h with h
        subst h
        exact List.mem_cons_self _ _
      · rw [if_neg h2] at h
        by_cases h3 : (!(valid e.socket)) = true
        · rw [if_pos h3] at h
          exact List.mem_cons_of_mem _ (ih s h)
        · rw [if_neg h3] at h
          exact List.mem_cons_of_mem _ (ih s h)

/-- Looking up the key just stored finds the stored value. -/
theorem mapFind_mapSet_self (m : List (String × List PooledConnection))
    (k : String) (v : List PooledConnection) :
    mapFind (mapSet m k v) k = some v := by
  induction m with
  | nil => simp [mapSet, mapFind]
  | cons kv rest ih =>
    obtain ⟨k0, v0⟩ := kv
    by_cases h : k0 = k
    · simp [mapSet, mapFind, h]
    · simp [mapSet, mapFind, h, ih]

/-- Storing under one key leaves lookups of other keys unchanged. -/
theorem mapFind_mapSet_ne (m : List (String × List PooledConnection))
    (k k' : String) (v : List PooledConnection) (h : k' ≠ k) :
    mapFind (mapSet m k v) k' = mapFind m k' := by
  have h2 : ¬ k = k' := fun hh => h hh.symm
  induction m with
  | nil => simp [mapSet, mapFind, h2]
  | cons kv rest ih =>
    obtain ⟨k0, v0⟩ := kv
    by_cases h0 : k0 = k
    · subst h0
      simp [mapSet, mapFind, h2]
    · simp only [mapSet, if_neg h0]
      by_cases h1 : k0 = k'
      · simp [mapFind, h1]
      · simp [mapFind, h1, ih]

/-- Storing under an absent key appends it to the table. -/
theorem mapSet_absent (m : List (String × List PooledConnection))
    (k : String) (v : List PooledConnection) (h : mapFind m k = none) :
    mapSet m k v = m ++ [(k, v)] := by
  induction m with
  | nil => rfl
  | cons kv rest ih =>
    obtain ⟨k0, v0⟩ := kv
    by_cases h0 : k0 = k
    · simp [mapFind, h0] at h
    · simp only [mapFind, if_neg h0] at h
      simp [mapSet, if_neg h0, ih h]

/-- Every binding of the table after a store is the stored binding or an
old one. -/
theorem mem_mapSet (m : List (String × List PooledConnection))
    (k : String) (v : List PooledConnection) :
    ∀ x ∈ mapSet m k v, x = (k, v) ∨ x ∈ m := by
  induction m with
  | nil => intro x hx; simp [mapSet] at hx; exact Or.inl hx
  | cons kv rest ih =>
    obtain ⟨k0, v0⟩ := kv
    intro x hx
    by_cases h : k0 = k
    · simp only [mapSet, if_pos h] at hx
      rw [List.mem_cons] at hx
      rcases hx with hx | hx
      · subst h; exact Or.inl hx
      · exact Or.inr (List.mem_cons_of_mem _ hx)
    · simp only [mapSet, if_neg h] at hx
      rw [List.mem_cons] at hx
      rcases hx with hx | hx
      · exact Or.inr (by simp [hx])
      · rcases ih x hx with h2 | h2
        · exact Or.inl h2
        · exact Or.inr (List.mem_cons_of_mem _ h2)

/-- A successful lookup is a binding of the table. -/
theorem mapFind_mem (m : List (String × List PooledConnection))
    (k : String) (v : List PooledConnection) (h : mapFind m k = some v) :
    (k, v) ∈ m := by
  induction m with
  | nil => simp [mapFind] at h
  | cons kv rest ih =>
    obtain ⟨k0, v0⟩ := kv
    by_cases h0 : k0 = k
    · simp only [mapFind, if_pos h0] at h
      injection h with h
      subst h0; subst h
      exact List.mem_cons_self _ _
    · simp only [mapFind, if_neg h0] at h
      exact List.mem_cons_of_mem _ (ih h)

/-- A bounded predicate survives a store whose binding satisfies it. -/
theorem all_mapSet {p : String × List PooledConnection → Bool}
    (m : List (String × List PooledConnection)) (k : String)
    (v : List PooledConnection) (hm : m.all p = true) (hv : p (k, v) = true) :
    (mapSet m k v).all p = true := by
  rw [List.all_eq_true] at hm ⊢
  intro x hx
  rcases mem_mapSet m k v x hx with h | h
  · rw [h]; exact hv
  · exact hm x h

/-- The sequence a key holds is bounded by the cap whenever the table
satisfies the capacity invariant (an absent key holds the empty
sequence). -/
theorem find_getD_len (mx : Int) (m : List (String × List PooledConnection))
    (key : String) (h0 : 0 ≤ mx)
    (hm : m.all (fun kv => (kv.2.length : Int) ≤ mx) = true) :
    ((( mapFind m key).getD []).length : Int) ≤ mx := by
  cases hf : mapFind m key with
  | none => simpa using h0
  | some v =>
    have := List.all_eq_true.mp hm _ (mapFind_mem m key v hf)
    simpa using this

/-- One acquire call preserves the capacity invariant of the table it
works on. -/
theorem acquireFromPool_inv (mx : Int) (it : Nat)
    (m : List (String × List PooledConnection)) (now : Nat)
    (valid : Nat → Bool) (fresh : Nat) (key : String) (h0 : 0 ≤ mx)
    (hm : m.all (fun kv => (kv.2.length : Int) ≤ mx) = true) :
    ((acquireFromPool mx it m now valid fresh key).2).all
      (fun kv => (kv.2.length : Int) ≤ mx) = true := by
  unfold acquireFromPool
  have hconns := find_getD_len mx m key h0 hm
  rcases hscan : scanAcquire it now valid ((mapFind m key).getD []) with ⟨o, conns'⟩
  have hlen : (conns'.length : Int) ≤ mx := by
    have hle := scanAcquire_length_le it now valid ((mapFind m key).getD [])
    rw [hscan] at hle
    have : (conns'.length : Int) ≤ (((mapFind m key).getD []).length : Int) := by
      exact_mod_cast hle
    omega
  cases o with
  | some s =>
    simp only [hscan]
    exact all_mapSet m key conns' hm (by simpa using hlen)
  | none =>
    simp only [hscan]
    by_cases hcap : (conns'.length : Int) < mx
    · rw [if_pos hcap]
      apply all_mapSet m key _ hm
      simp only [decide_eq_true_eq, List.length_append, List.length_cons,
        List.length_nil]
      push_cast
      omega
    · rw [if_neg hcap]
      exact all_mapSet m key conns' hm (by simpa using hlen)

/-- Erasing a matching entry never lengthens the sequence. -/
theorem eraseFirstMatch_length_le (sock : Nat) :
    ∀ l : List PooledConnection, (eraseFirstMatch sock l).length ≤ l.length := by
  intro l
  induction l with
  | nil => simp [eraseFirstMatch]
  | cons e rest ih =>
    simp only [eraseFirstMatch]
    by_cases h : e.socket = sock
    · simp [h, Nat.le_succ]
    · simp only [if_neg h, List.length_cons]
      exact Nat.succ_le_succ ih

/-- Marking a matching entry keeps the sequence length. -/
theorem markFirstMatch_length (sock now : Nat) :
    ∀ l : List PooledConnection, (markFirstMatch sock now l).length = l.length := by
  intro l
  induction l with
  | nil => rfl
  | cons e rest ih =>
    simp only [markFirstMatch]
    by_cases h : e.socket = sock
    · simp [h]
    · simp [if_neg h, ih]

/-- A release never lengthens the key's sequence. -/
theorem releaseIntoSeq_length_le (sock now : Nat) (keep : Bool)
    (l : List PooledConnection) : (releaseIntoSeq sock now keep l).length ≤ l.length := by
  unfold releaseIntoSeq
  cases keep
  · simpa using eraseFirstMatch_length_le sock l
  · simp [markFirstMatch_length]

/-- One release call preserves the capacity invariant of the table it
works on. -/
theorem releaseTable_inv (mx : Int) (m : List (String × List PooledConnection))
    (key : String) (sock now : Nat) (keep : Bool) (h0 : 0 ≤ mx)
    (hm : m.all (fun kv => (kv.2.length : Int) ≤ mx) = true) :
    (mapSet m key (releaseIntoSeq sock now keep ((mapFind m key).getD []))).all
      (fun kv => (kv.2.length : Int) ≤ mx) = true := by
  have hconns := find_getD_len mx m key h0 hm
  apply all_mapSet m key _ hm
  simp only [decide_eq_true_eq]
  have hle := releaseIntoSeq_length_le sock now keep ((mapFind m key).getD [])
  have : ((releaseIntoSeq sock now keep ((mapFind m key).getD [])).length : Int)
      ≤ (((mapFind m key).getD []).length : Int) := by exact_mod_cast hle
  omega

/-- Every pool operation leaves the per-host cap field unchanged. -/
theorem applyOp_max (p : ConnectionPool) (op : PoolOp) :
    (applyOp p op).max_connections_per_host = p.max_connections_per_host := by
  cases op <;> rfl

/-- Every pool operation preserves the capacity invariant. -/
theorem applyOp_inv (p : ConnectionPool) (op : PoolOp)
    (h0 : 0 ≤ p.max_connections_per_host) (hp : poolInvB p = true) :
    poolInvB (applyOp p op) = true := by
  unfold poolInvB at hp ⊢
  rw [Bool.and_eq_true] at hp
  obtain ⟨hh, hs⟩ := hp
  cases op with
  | get now valid fresh host port =>
    simp only [applyOp, get_connection, Bool.and_eq_true]
    exact ⟨acquireFromPool_inv _ _ _ _ _ _ _ h0 hh, hs⟩
  | getSsl now valid fresh host port =>
    simp only [applyOp, get_ssl_connection, Bool.and_eq_true]
    exact ⟨hh, acquireFromPool_inv _ _ _ _ _ _ _ h0 hs⟩
  | release sock host port keep now =>
    simp only [applyOp, release_connection, Bool.and_eq_true]
    exact ⟨releaseTable_inv _ _ _ _ _ _ h0 hh, hs⟩
  | releaseSsl sock host port keep now =>
    simp only [applyOp, release_ssl_connection, Bool.and_eq_true]
    exact ⟨hh, releaseTable_inv _ _ _ _ _ _ h0 hs⟩
  | clear =>
    simp [applyOp, ConnectionPool.clear]

/-- Running any operation sequence preserves the capacity invariant. -/
theorem runOps_inv :
    ∀ (ops : List PoolOp) (p : ConnectionPool),
      0 ≤ p.max_connections_per_host → poolInvB p = true →
      poolInvB (runOps p ops) = true := by
  intro ops
  induction ops with
  | nil => intro p _ hp; exact hp
  | cons op rest ih =>
    intro p h0 hp
    have hstep := applyOp_inv p op h0 hp
    have hmax := applyOp_max p op
    exact ih (applyOp p op) (by rw [hmax]; exact h0) hstep

/-- C1: starting from an empty pool with a nonnegative per-host cap,
every sequence of acquire and release operations keeps the number of
pooled entries of every key (plain and TLS) at or below
`max_connections_per_host`; and whenever the scan of a key's sequence
finds no usable entry and the scanned sequence has reached the cap, the
acquire returns the freshly created handle and stores exactly the
scanned sequence — the overflow connection is never inserted into the
table. -/
theorem claim_C1 (mx : Int) (it : Nat) (ops : List PoolOp) (hmx : 0 ≤ mx) :
    poolInvB (runOps ⟨mx, it, [], []⟩ ops) = true
  ∧ (∀ (p : ConnectionPool) (now : Nat) (valid : Nat → Bool) (fresh : Nat)
      (host port : String),
      (scanAcquire p.idle_timeout now valid
        ((mapFind p.http_pool (host ++ ":" ++ port)).getD [])).1 = none →
      ¬ (((scanAcquire p.idle_timeout now valid
            ((mapFind p.http_pool (host ++ ":" ++ port)).getD [])).2.length : Int)
          < p.max_connections_per_host) →
      (get_connection p now valid fresh host port).1 = fresh
        ∧ mapFind (get_connection p now valid fresh host port).2.http_pool
            (host ++ ":" ++ port)
          = some (scanAcquire p.idle_timeout now valid
              ((mapFind p.http_pool (host ++ ":" ++ port)).getD [])).2)
  ∧ (∀ (p : ConnectionPool) (now : Nat) (valid : Nat → Bool) (fresh : Nat)
      (host port : String),
      (scanAcquire p.idle_timeout now valid
        ((mapFind p.ssl_pool (host ++ ":" ++ port)).getD [])).1 = none →
      ¬ (((scanAcquire p.idle_timeout now valid
            ((mapFind p.ssl_pool (host ++ ":" ++ port)).getD [])).2.length : Int)
          < p.max_connections_per_host) →
      (get_ssl_connection p now valid fresh host port).1 = fresh
        ∧ mapFind (get_ssl_connection p now valid fresh host port).2.ssl_pool
            (host ++ ":" ++ port)
          = some (scanAcquire p.idle_timeout now valid
              ((mapFind p.ssl_pool (host ++ ":" ++ port)).getD [])).2) := by
  refine ⟨runOps_inv ops ⟨mx, it, [], []⟩ hmx (by rfl), ?_, ?_⟩
  · intro p now valid fresh host port hnone hcap
    simp only [get_connection, acquireFromPool]
    rcases hscan : scanAcquire p.idle_timeout now valid
        ((mapFind p.http_pool (host ++ ":" ++ port)).getD []) with ⟨o, conns'⟩
    rw [hscan] at hnone hcap
    simp only at hnone hcap
    subst hnone
    simp only [hscan, if_neg hcap]
    exact ⟨trivial, mapFind_mapSet_self _ _ _⟩
  · intro p now valid fresh host port hnone hcap
    simp only [get_ssl_connection, acquireFromPool]
    rcases hscan : scanAcquire p.idle_timeout now valid
        ((mapFind p.ssl_pool (host ++ ":" ++ port)).getD []) with ⟨o, conns'⟩
    rw [hscan] at hnone hcap
    simp only at hnone hcap
    subst hnone
    simp only [hscan, if_neg hcap]
    exact ⟨trivial, mapFind_mapSet_self _ _ _⟩

/-- Witness for C1: a concrete operation sequence that exceeds the cap
of 1 keeps the invariant, and a concrete full pool with its single entry
busy hands out the overflow handle 99. -/
theorem claim_C1_witness :
    poolInvB (runOps ⟨1, 30, [], []⟩ sampleOps) = true
  ∧ (get_connection samplePool 5 sampleValidAll 99 "h" "80").1 = 99 := by
  have h := claim_C1 1 30 sampleOps (by decide)
  exact ⟨h.1, (h.2.1 samplePool 5 sampleValidAll 99 "h" "80" (by decide) (by decide)).1⟩

/-- Characterization of the scan loop: it returns the handle of the
first usable entry (none when there is none); on a full scan the
remaining sequence is exactly the entries that are neither idle past the
timeout nor dead; and when a usable entry is found, the prefix before it
is cleaned the same way, the found entry is re-inserted marked in use
with its timestamp refreshed, and the entries after it are left
untouched. -/
theorem scanAcquire_spec (it now : Nat) (valid : Nat → Bool) :
    ∀ conns : List PooledConnection,
      (scanAcquire it now valid conns).1
        = (conns.find? (usableEntry it now valid)).map PooledConnection.socket
      ∧ (conns.find? (usableEntry it now valid) = none →
          (scanAcquire it now valid conns).2 = conns.filter (keepEntry it now valid))
      ∧ (∀ e, conns.find? (usableEntry it now valid) = some e →
          (scanAcquire it now valid conns).2
            = (conns.takeWhile (fun x => !(usableEntry it now valid x))).filter
                (keepEntry it now valid)
              ++ ({ e with in_use := true, last_used := now } ::
                  (conns.dropWhile (fun x => !(usableEntry it now valid x))).drop 1)) := by
  intro conns
  induction conns with
  | nil =>
    refine ⟨rfl, fun _ => rfl, fun e h => ?_⟩
    simp [List.find?] at h
  | cons e rest ih =>
    obtain ⟨ihA, ihB, ihC⟩ := ih
    by_cases h1 : it < now - e.last_used
    · have hu : usableEntry it now valid e = false := by simp [usableEntry, h1]
      have hk : keepEntry it now valid e = false := by simp [keepEntry, h1]
      refine ⟨?_, ?_, ?_⟩
      · rw [List.find?_cons_of_neg rest (by simp [hu])]
        simpa [scanAcquire, if_pos h1] using ihA
      · intro hn
        rw [List.find?_cons_of_neg rest (by simp [hu])] at hn
        rw [List.filter_cons_of_neg (by simp [hk])]
        simpa [scanAcquire, if_pos h1] using ihB hn
      · intro f hf
        rw [List.find?_cons_of_neg rest (by simp [hu])] at hf
        rw [List.takeWhile_cons_of_pos (by simp [hu]),
          List.dropWhile_cons_of_pos (by simp [hu]),
          List.filter_cons_of_neg (by simp [hk])]
        simpa [scanAcquire, if_pos h1] using ihC f hf
    · by_cases h2 : (!e.in_use && valid e.socket) = true
      · have hin : e.in_use = false ∧ valid e.socket = true := by
          simpa using h2
        have hu : usableEntry it now valid e = true := by
          simp [usableEntry, h1, hin.1, hin.2]
        refine ⟨?_, ?_, ?_⟩
        · rw [List.find?_cons_of_pos rest hu]
          simp [scanAcquire, h1, hin.1, hin.2]
        · intro hn
          rw [List.find?_cons_of_pos rest hu] at hn
          cases hn
        · intro f hf
          rw [List.find?_cons_of_pos rest hu] at hf
          injection hf with hf
          subst hf
          rw [List.takeWhile_cons_of_neg (by simp [hu]),
            List.dropWhile_cons_of_neg (by simp [hu])]
          simp [scanAcquire, h1, hin.1, hin.2]
      · have hb2 : (!e.in_use && valid e.socket) = false := by
          revert h2; cases (!e.in_use && valid e.socket) <;> simp
        by_cases h3 : (!(valid e.socket)) = true
        · have hv : valid e.socket = false := by simpa using h3
          have hu : usableEntry it now valid e = false := by
            simp [usableEntry, hv]
          have hk : keepEntry it now valid e = false := by
            simp [keepEntry, hv]
          refine ⟨?_, ?_, ?_⟩
          · rw [List.find?_cons_of_neg rest (by simp [hu])]
            simpa [scanAcquire, h1, hv] using ihA
          · intro hn
            rw [List.find?_cons_of_neg rest (by simp [hu])] at hn
            rw [List.filter_cons_of_neg (by simp [hk])]
            simpa [scanAcquire, h1, hv] using ihB hn
          · intro f hf
            rw [List.find?_cons_of_neg rest (by simp [hu])] at hf
            rw [List.takeWhile_cons_of_pos (by simp [hu]),
              List.dropWhile_cons_of_pos (by simp [hu]),
              List.filter_cons_of_neg (by simp [hk])]
            simpa [scanAcquire, h1, hv] using ihC f hf
        · have hv : valid e.socket = true := by
            revert h3; cases valid e.socket <;> simp
          have hin : e.in_use = true := by
            revert hb2; rw [hv]; cases e.in_use <;> simp
          have hu : usableEntry it now valid e = false := by
            simp [usableEntry, hin]
          have hk : keepEntry it now valid e = true := by
            simp [keepEntry, h1, hv]
          refine ⟨?_, ?_, ?_⟩
          · rw [List.find?_cons_of_neg rest (by simp [hu])]
            simpa [scanAcquire, h1, hin, hv] using ihA
          · intro hn
            rw [List.find?_cons_of_neg rest (by simp [hu])] at hn
            rw [List.filter_cons_of_pos hk]
            have hr := ihB hn
            simp [scanAcquire, h1, hin, hv, hr]
          · intro f hf
            rw [List.find?_cons_of_neg rest (by simp [hu])] at hf
            have hr := ihC f hf
            rw [List.takeWhile_cons_of_pos (by simp [hu]),
              List.dropWhile_cons_of_pos (by simp [hu]),
              List.filter_cons_of_pos hk]
            simp [scanAcquire, h1, hin, hv, hr]

/-- C3: the scan of `get_connection` (and `get_ssl_connection`) returns
exactly the first entry that is not in use, not idle past the timeout
and passes the liveness probe — never an in-use, stale or dead one;
entries the scan visits that are past the idle timeout (or fail the
probe) are erased; the returned entry is stored marked in use with
`last_used` refreshed; and the wrappers hand the found handle out,
storing the scanned sequence under the key. -/
theorem claim_C3 (it now : Nat) (valid : Nat → Bool) (conns : List PooledConnection) :
    (scanAcquire it now valid conns).1
      = (conns.find? (usableEntry it now valid)).map PooledConnection.socket
  ∧ (conns.find? (usableEntry it now valid) = none →
      (scanAcquire it now valid conns).2 = conns.filter (keepEntry it now valid))
  ∧ (∀ e, conns.find? (usableEntry it now valid) = some e →
      (scanAcquire it now valid conns).2
        = (conns.takeWhile (fun x => !(usableEntry it now valid x))).filter
            (keepEntry it now valid)
          ++ ({ e with in_use := true, last_used := now } ::
              (conns.dropWhile (fun x => !(usableEntry it now valid x))).drop 1))
  ∧ (∀ (p : ConnectionPool) (host port : String) (fresh s : Nat)
      (d : List PooledConnection),
      scanAcquire p.idle_timeout now valid
        ((mapFind p.http_pool (host ++ ":" ++ port)).getD []) = (some s, d) →
      get_connection p now valid fresh host port
        = (s, { p with http_pool := mapSet p.http_pool (host ++ ":" ++ port) d }))
  ∧ (∀ (p : ConnectionPool) (host port : String) (fresh s : Nat)
      (d : List PooledConnection),
      scanAcquire p.idle_timeout now valid
        ((mapFind p.ssl_pool (host ++ ":" ++ port)).getD []) = (some s, d) →
      get_ssl_connection p now valid fresh host port
        = (s, { p with ssl_pool := mapSet p.ssl_pool (host ++ ":" ++ port) d })) := by
  obtain ⟨hA, hB, hC⟩ := scanAcquire_spec it now valid conns
  refine ⟨hA, hB, hC, ?_, ?_⟩
  · intro p host port fresh s d hscan
    simp [get_connection, acquireFromPool, hscan]
  · intro p host port fresh s d hscan
    simp [get_ssl_connection, acquireFromPool, hscan]

/-- Witness for C3 on a concrete sequence: the stale first entry and the
dead third entry are erased, the busy second entry survives, the free
live fourth entry (handle 4) is returned marked in use with its
timestamp refreshed, and the trailing stale entry is left untouched. -/
theorem claim_C3_witness :
    (scanAcquire 10 20 sampleValid3 sampleConns).1 = some 4
  ∧ (scanAcquire 10 20 sampleValid3 sampleConns).2
      = [⟨2, 15, true⟩, ⟨4, 20, true⟩, ⟨5, 1, false⟩] := by
  have h := claim_C3 10 20 sampleValid3 sampleConns
  constructor
  · rw [h.1]; decide
  · rw [h.2.2.1 ⟨4, 15, false⟩ (by decide)]; decide

/-- Erasing a handle that occurs nowhere in the sequence changes
nothing. -/
theorem eraseFirstMatch_not_mem (sock : Nat) :
    ∀ l : List PooledConnection,
      sock ∉ l.map PooledConnection.socket → eraseFirstMatch sock l = l := by
  intro l
  induction l with
  | nil => intro _; rfl
  | cons e rest ih =>
    intro h
    simp only [List.map_cons, List.mem_cons] at h
    push_neg at h
    simp only [eraseFirstMatch, if_neg (fun hh : e.socket = sock => h.1 hh.symm)]
    rw [ih h.2]

/-- Marking a handle that occurs nowhere in the sequence changes
nothing. -/
theorem markFirstMatch_not_mem (sock now : Nat) :
    ∀ l : List PooledConnection,
      sock ∉ l.map PooledConnection.socket → markFirstMatch sock now l = l := by
  intro l
  induction l with
  | nil => intro _; rfl
  | cons e rest ih =>
    intro h
    simp only [List.map_cons, List.mem_cons] at h
    push_neg at h
    simp only [markFirstMatch, if_neg (fun hh : e.socket = sock => h.1 hh.symm)]
    rw [ih h.2]

/-- Erasing removes exactly the first entry carrying the handle. -/
theorem eraseFirstMatch_spec (sock : Nat) :
    ∀ (l : List PooledConnection) (e : PooledConnection),
      l.find? (fun x => x.socket == sock) = some e →
      eraseFirstMatch sock l
        = l.takeWhile (fun x => !(x.socket == sock))
          ++ (l.dropWhile (fun x => !(x.socket == sock))).drop 1 := by
  intro l
  induction l with
  | nil => intro e h; simp [List.find?] at h
  | cons e0 rest ih =>
    intro e h
    by_cases h0 : e0.socket = sock
    · rw [List.takeWhile_cons_of_neg (by simp [h0]),
        List.dropWhile_cons_of_neg (by simp [h0])]
      simp [eraseFirstMatch, h0]
    · rw [List.find?_cons_of_neg rest (by simp [h0])] at h
      rw [List.takeWhile_cons_of_pos (by simp [h0]),
        List.dropWhile_cons_of_pos (by simp [h0])]
      simp only [eraseFirstMatch, if_neg h0]
      rw [ih e h]
      simp

/-- Marking rewrites exactly the first entry carrying the handle to an
idle entry with a refreshed timestamp. -/
theorem markFirstMatch_spec (sock now : Nat) :
    ∀ (l : List PooledConnection) (e : PooledConnection),
      l.find? (fun x => x.socket == sock) = some e →
      markFirstMatch sock now l
        = l.takeWhile (fun x => !(x.socket == sock))
          ++ ({ e with in_use := false, last_used := now } ::
              (l.dropWhile (fun x => !(x.socket == sock))).drop 1) := by
  intro l
  induction l with
  | nil => intro e h; simp [List.find?] at h
  | cons e0 rest ih =>
    intro e h
    by_cases h0 : e0.socket = sock
    · rw [List.find?_cons_of_pos rest (by simp [h0])] at h
      injection h with h
      subst h
      rw [List.takeWhile_cons_of_neg (by simp [h0]),
        List.dropWhile_cons_of_neg (by simp [h0])]
      simp [markFirstMatch, h0]
    · rw [List.find?_cons_of_neg rest (by simp [h0])] at h
      rw [List.takeWhile_cons_of_pos (by simp [h0]),
        List.dropWhile_cons_of_pos (by simp [h0])]
      simp only [markFirstMatch, if_neg h0]
      rw [ih e h]
      simp

/-- On a sequence with pairwise-distinct handles, erasing a handle
leaves a sequence that no longer carries it. -/
theorem eraseFirstMatch_removes (sock : Nat) :
    ∀ l : List PooledConnection,
      (l.map PooledConnection.socket).Nodup →
      sock ∉ (eraseFirstMatch sock l).map PooledConnection.socket := by
  intro l
  induction l with
  | nil => intro _; simp [eraseFirstMatch]
  | cons e rest ih =>
    intro hnd
    simp only [List.map_cons, List.nodup_cons] at hnd
    obtain ⟨hni, hnd⟩ := hnd
    by_cases h0 : e.socket = sock
    · simp only [eraseFirstMatch, if_pos h0]
      rw [h0] at hni
      exact hni
    · simp only [eraseFirstMatch, if_neg h0, List.map_cons, List.mem_cons]
      push_neg
      exact ⟨fun hh => h0 hh.symm, ih hnd⟩

/-- An acquire hands out the fresh handle or a handle already stored
under the key. -/
theorem acquireFromPool_result (mx : Int) (it : Nat)
    (m : List (String × List PooledConnection)) (now : Nat)
    (valid : Nat → Bool) (fresh : Nat) (key : String) :
    (acquireFromPool mx it m now valid fresh key).1 = fresh
  ∨ (acquireFromPool mx it m now valid fresh key).1
      ∈ ((mapFind m key).getD []).map PooledConnection.socket := by
  unfold acquireFromPool
  rcases hscan : scanAcquire it now valid ((mapFind m key).getD []) with ⟨o, conns'⟩
  cases o with
  | some s =>
    right
    have := scanAcquire_mem it now valid ((mapFind m key).getD []) s
      (by rw [hscan])
    simpa [hscan] using this
  | none =>
    left
    by_cases hcap : ((conns'.length : Int) < mx)
    · simp [hscan, hcap]
    · simp [hscan, hcap]

/-- C5 (amended): `release_connection` (and `release_ssl_connection`)
with keep-alive false removes the first entry whose handle is identical
to the released one, after which a pool whose key sequence held distinct
handles never hands that handle out again for the key; with keep-alive
true it marks that entry idle and refreshes its timestamp; a release
whose handle matches no entry leaves the key's sequence unchanged; and a
release touches nothing else — the other table is untouched, other keys
are unchanged, and the only table change possible without a match is
that the key is created holding the empty sequence when it was absent. -/
theorem claim_C5_amended :
    (∀ (conns : List PooledConnection) (sock : Nat) (e : PooledConnection),
      conns.find? (fun x => x.socket == sock) = some e →
      eraseFirstMatch sock conns
        = conns.takeWhile (fun x => !(x.socket == sock))
          ++ (conns.dropWhile (fun x => !(x.socket == sock))).drop 1)
  ∧ (∀ (conns : List PooledConnection) (sock now : Nat) (e : PooledConnection),
      conns.find? (fun x => x.socket == sock) = some e →
      markFirstMatch sock now conns
        = conns.takeWhile (fun x => !(x.socket == sock))
          ++ ({ e with in_use := false, last_used := now } ::
              (conns.dropWhile (fun x => !(x.socket == sock))).drop 1))
  ∧ (∀ (conns : List PooledConnection) (sock now : Nat) (keep : Bool),
      sock ∉ conns.map PooledConnection.socket →
      releaseIntoSeq sock now keep conns = conns)
  ∧ (∀ (p : ConnectionPool) (sock : Nat) (host port : String) (keep : Bool)
      (now : Nat),
      (release_connection p sock host port keep now).ssl_pool = p.ssl_pool
      ∧ (release_ssl_connection p sock host port keep now).http_pool = p.http_pool
      ∧ (∀ k', k' ≠ host ++ ":" ++ port →
          mapFind (release_connection p sock host port keep now).http_pool k'
            = mapFind p.http_pool k'))
  ∧ (∀ (p : ConnectionPool) (sock : Nat) (host port : String) (keep : Bool)
      (now : Nat),
      mapFind p.http_pool (host ++ ":" ++ port) = none →
      (release_connection p sock host port keep now).http_pool
        = p.http_pool ++ [(host ++ ":" ++ port, [])])
  ∧ (∀ (p : ConnectionPool) (sock : Nat) (host port : String) (now now2 : Nat)
      (valid : Nat → Bool) (fresh : Nat),
      (((mapFind p.http_pool (host ++ ":" ++ port)).getD []).map
          PooledConnection.socket).Nodup →
      fresh ≠ sock →
      (get_connection (release_connection p sock host port false now)
          now2 valid fresh host port).1 ≠ sock) := by
  refine ⟨fun conns sock e h => eraseFirstMatch_spec sock conns e h,
    fun conns sock now e h => markFirstMatch_spec sock now conns e h,
    ?_, ?_, ?_, ?_⟩
  · intro conns sock now keep h
    unfold releaseIntoSeq
    cases keep
    · simpa using eraseFirstMatch_not_mem sock conns h
    · simpa using markFirstMatch_not_mem sock now conns h
  · intro p sock host port keep now
    refine ⟨rfl, rfl, fun k' hk => ?_⟩
    simp only [release_connection]
    exact mapFind_mapSet_ne _ _ _ _ hk
  · intro p sock host port keep now habs
    simp only [release_connection, habs, Option.getD_none]
    have : releaseIntoSeq sock now keep [] = [] := by
      unfold releaseIntoSeq; cases keep <;> rfl
    rw [this]
    exact mapSet_absent _ _ _ habs
  · intro p sock host port now now2 valid fresh hnd hfr
    have hkey : mapFind (release_connection p sock host port false now).http_pool
        (host ++ ":" ++ port)
        = some (eraseFirstMatch sock ((mapFind p.http_pool (host ++ ":" ++ port)).getD [])) := by
      simp only [release_connection, releaseIntoSeq, Bool.false_eq_true, if_false]
      exact mapFind_mapSet_self _ _ _
    have hres := acquireFromPool_result
      (release_connection p sock host port false now).max_connections_per_host
      (release_connection p sock host port false now).idle_timeout
      (release_connection p sock host port false now).http_pool
      now2 valid fresh (host ++ ":" ++ port)
    have hget : (get_connection (release_connection p sock host port false now)
        now2 valid fresh host port).1
        = (acquireFromPool
            (release_connection p sock host port false now).max_connections_per_host
            (release_connection p sock host port false now).idle_timeout
            (release_connection p sock host port false now).http_pool
            now2 valid fresh (host ++ ":" ++ port)).1 := rfl
    rw [hget]
    rcases hres with hres | hres
    · rw [hres]; exact hfr
    · rw [hkey] at hres
      simp only [Option.getD_some] at hres
      intro hcontra
      rw [hcontra] at hres
      exact eraseFirstMatch_removes sock _ hnd hres

/-- Witness for C5 (amended): after releasing handle 5 of a concrete
pool with keep-alive false, a subsequent acquire with fresh handle 9
does not return 5. -/
theorem claim_C5_witness :
    (get_connection (release_connection samplePoolRelease 5 "h" "80" false 0)
        1 sampleValidAll 9 "h" "80").1 ≠ 5 := by
  exact claim_C5_amended.2.2.2.2.2 samplePoolRelease 5 "h" "80" 0 1 sampleValidAll 9
    (by decide) (by decide)

/-- C8 (amended): `build_socks5_connect("example.com", "443")` yields
exactly `05 01 00 03 0B`, the ASCII bytes of `example.com`, then
`01 BB`; and for every reply and every minimum size of at least 1,
`parse_socks5_response` returns false when the reply is shorter than the
minimum and otherwise returns true exactly when the byte at offset 1 —
the terminating null character when the reply has length exactly 1 — is
`0x00`. -/
theorem claim_C8_amended :
    build_socks5_connect "example.com".data "443".data
      = some [0x05, 0x01, 0x00, 0x03, 0x0B,
              101, 120, 97, 109, 112, 108, 101, 46, 99, 111, 109, 0x01, 0xBB]
  ∧ (∀ (r : List Nat) (m : Nat), 1 ≤ m →
      (r.length < m → parse_socks5_response r m = some false)
      ∧ (¬ r.length < m → parse_socks5_response r m = some (r.getD 1 0 == 0))) := by
  refine ⟨by decide, ?_⟩
  intro r m hm
  constructor
  · intro h
    simp [parse_socks5_response, h]
  · intro h
    have hlen : 1 ≤ r.length := by omega
    simp only [parse_socks5_response, if_neg h]
    rcases lt_or_eq_of_le hlen with hlt | heq
    · have hget : cppCharAt r 1 = some (r.get ⟨1, hlt⟩) := by
        simp [cppCharAt, hlt]
      rw [hget]
      simp [List.getD_eq_getElem r 0 hlt, List.get_eq_getElem,
        List.getElem?_eq_getElem hlt]
    · have hget : cppCharAt r 1 = some 0 := by
        simp [cppCharAt, ← heq]
      rw [hget]
      rw [List.getD_eq_default r 0 (by omega)]
      simp

/-- Witness for C8 (amended): a two-byte success reply with the
protocol minimum of 2 parses as success. -/
theorem claim_C8_witness : parse_socks5_response [5, 0] 2 = some true := by
  exact ((claim_C8_amended.2 [5, 0] 2 (by decide)).2 (by decide)).trans (by decide)

end CoroHttp
